import Mathlib

/-!
Shallow embedding of `src/data-parser.ts` (ts-data-parser).

JavaScript runtime values are modelled by `JsValue`. The claims use numbers
only as integers, so JS numbers are modelled by `Int`; `Moment` objects are
modelled by `JsValue.date (some ms)` for a valid instant at `ms` milliseconds
since the Unix epoch and `JsValue.date none` for an invalid moment (whose
`diff` is `NaN`). Thrown exceptions are modelled by `Except`:
`JsError.parsing` is an `Error` built by the library's `error(msg, ctx)`
constructor (the carried message already contains the formatted context),
while `JsError.foreign` is any other error raised by caller-supplied code.
Both kinds stand for `Error`-like objects, which are truthy in JS, so the
`if (err)` test in `alt` is modelled as the presence of a caught error.
-/

namespace DataParser

/-- A JavaScript runtime value. -/
inductive JsValue where
  | undefined
  | null
  | bool (b : Bool)
  | num (n : Int)
  | str (s : String)
  | date (ms : Option Int)
  | arr (xs : List JsValue)
  | obj (fields : List (String × JsValue))

/-- `String(v)`: the JS string conversion used in the error messages.
Array conversion joins the element conversions with commas, where `null` and
`undefined` elements become the empty string; plain objects convert to
`"[object Object]"`. A moment's `toString` formatting is not needed by any
claim and is rendered as a placeholder. -/
def reprJs : JsValue → String
  | .undefined => "undefined"
  | .null => "null"
  | .bool true => "true"
  | .bool false => "false"
  | .num n => toString n
  | .str s => s
  | .date _ => "[moment]"
  | .arr xs => String.intercalate ","
      (xs.attach.map (fun y =>
        match y with
        | ⟨.undefined, _⟩ => ""
        | ⟨.null, _⟩ => ""
        | ⟨v, _⟩ => reprJs v))
  | .obj _ => "[object Object]"
decreasing_by
  all_goals
    simp_wf
  all_goals
    rename_i hv
    have := List.sizeOf_lt_of_mem hv
    omega

/-- A thrown JS exception: either an `Error` made by the library's
context-aware `error` constructor, or any other value raised by
caller-supplied code (tagged by a string). -/
inductive JsError where
  | parsing (msg : String)
  | foreign (tag : String)

/-- `typeof v` for the modelled values. -/
def jsTypeof : JsValue → String
  | .undefined => "undefined"
  | .null => "object"
  | .bool _ => "boolean"
  | .num _ => "number"
  | .str _ => "string"
  | .date _ => "object"
  | .arr _ => "object"
  | .obj _ => "object"

/-- `Array.isArray(v)`. -/
def isJsArray : JsValue → Bool
  | .arr _ => true
  | _ => false

/-- `v === null`. -/
def isJsNull : JsValue → Bool
  | .null => true
  | _ => false

/-- `v !== undefined` is the negation of this test. -/
def isUndefined : JsValue → Bool
  | .undefined => true
  | _ => false

/-- `type ParsingCtx = () => Array<string>`: a thunk of path fragments. -/
def ParsingCtx : Type := Unit → List String

/-- `newParsingCtx = () => []`. -/
def newParsingCtx : ParsingCtx := fun _ => []

/-- `pushToCtx(ctx, msg) = () => [msg, ...ctx()]`. -/
def pushToCtx (ctx : ParsingCtx) (msg : String) : ParsingCtx :=
  fun _ => msg :: ctx ()

/-- `type Parser<T, U> = (v: T, ctx: ParsingCtx) => U`, over the universal
value type, with thrown exceptions made explicit in the result. -/
def Parser : Type := JsValue → ParsingCtx → Except JsError JsValue

/-- `compose(a, b) = (v, ctx) => b(a(v, ctx), ctx)`; if `a` throws, the
exception propagates before `b` is ever invoked. -/
def compose (a b : Parser) : Parser := fun v ctx =>
  match a v ctx with
  | .error e => .error e
  | .ok u => b u ctx

/-- `error(msg, ctx)`: starts from `msg` and appends `" in " + x` for each
fragment `x` of `ctx()` in stored order (`forEach` = left fold). The
source's `if (ctx)` truthiness guard always holds here, since a context is
a function and functions are truthy. -/
def error (msg : String) (ctx : ParsingCtx) : JsError :=
  .parsing ((ctx ()).foldl (fun s x => s ++ " in " ++ x) msg)

/-- `fail(msg)`: unconditionally throws `error(msg, ctx)`. -/
def fail (msg : String) : Parser := fun _ ctx =>
  .error (error msg ctx)

/-- `failWith(f)`: unconditionally throws `error(f(v), ctx)`. -/
def failWith (f : JsValue → String) : Parser := fun v ctx =>
  .error (error (f v) ctx)

/-- `preCondition(parser, pred)`. -/
def preCondition (parser : Parser) (pred : JsValue → Option String) : Parser :=
  fun v ctx =>
  match pred v with
  | some msg => .error (error msg ctx)
  | none => parser v ctx

/-- `postCondition(parser, pred)`. -/
def postCondition (parser : Parser) (pred : JsValue → Option String) : Parser :=
  fun v ctx =>
  match parser v ctx with
  | .error e => .error e
  | .ok result =>
    match pred result with
    | some msg => .error (error msg ctx)
    | none => .ok result

/-- `string`: returns `v` unchanged when `typeof v === "string"`, else
throws the context-annotated type error. -/
def string : Parser := fun v ctx =>
  if jsTypeof v = "string" then .ok v
  else .error (error ("Value " ++ reprJs v ++ " is not a string") ctx)

/-- `boolean`. -/
def boolean : Parser := fun v ctx =>
  if jsTypeof v = "boolean" then .ok v
  else .error (error ("Value " ++ reprJs v ++ " is not a boolean") ctx)

/-- `number`. -/
def number : Parser := fun v ctx =>
  if jsTypeof v = "number" then .ok v
  else .error (error ("Value " ++ reprJs v ++ " is not a number") ctx)

/-- `a.diff(b)` on two moments: `none` models `NaN`, produced when either
moment is invalid. -/
def momentDiff : Option Int → Option Int → Option Int
  | some a, some b => some (a - b)
  | _, _ => none

/-- `d > 0` for a possibly-`NaN` difference: every comparison with `NaN`
is false in JS. -/
def diffGtZero : Option Int → Bool
  | some d => decide (0 < d)
  | none => false

/-- `dateTime`, parameterised by the behaviour `momentParse` of the moment
constructor on strings: `momentParse s = some ms` when `moment(s)` is a
valid instant at `ms` milliseconds since the epoch, and `none` when it is
an invalid moment. The moment constructor never throws on a string input
(an unparseable string yields an *invalid* moment plus a console
deprecation warning), and `diff`/comparison never throw either, so the
source's `catch` branch — the only place the message
`"Value <v> is not a date and time"` could be raised — is unreachable, and
when the `if` guard fails the arrow function falls through and returns
`undefined` (hence the source's return type `Moment | undefined`). -/
def dateTime (momentParse : String → Option Int) : Parser :=
  compose string (fun v ctx =>
    match v, ctx with
    | .str s, _ =>
      let d := momentParse s
      if diffGtZero (momentDiff d (momentParse "1899-12-30T00:00:00.000Z"))
      then .ok (.date d)
      else .ok .undefined
    | _, _ => .ok .undefined)

/-- `isRecord(v)`: `typeof v === "object" && v !== null && !Array.isArray(v)`. -/
def isRecord (v : JsValue) : Bool :=
  jsTypeof v = "object" && !isJsNull v && !isJsArray v

/-- Own-property lookup on an object's association list: models both
`Object.prototype.hasOwnProperty.call(v, key)` (the result is `some`) and
the subsequent read `v[key]`. Prototype-inherited properties are never read
by the source (the read is guarded by `hasOwnProperty`), so they are not
modelled. -/
def lookupField : List (String × JsValue) → String → Option JsValue
  | [], _ => none
  | (k, u) :: rest, key => if k = key then some u else lookupField rest key

/-- Own properties of an object-like value. A moment's internal own
properties are irrelevant to every claim and are modelled as empty. -/
def ownFields : JsValue → List (String × JsValue)
  | .obj fields => fields
  | _ => []

/-- `obj[key] = u` on a JS object modelled as an association list: an
existing key keeps its position and is overwritten, a new key is appended. -/
def assign : List (String × JsValue) → String → JsValue → List (String × JsValue)
  | [], key, u => [(key, u)]
  | (k, w) :: rest, key, u =>
    if k = key then (k, u) :: rest else (k, w) :: assign rest key u

/-- The value a field parser is invoked on: the input's own-property value
when the key is present, else `undefined` (source lines 113–118). -/
def objFieldArg (fields : List (String × JsValue)) (key : String) : JsValue :=
  match lookupField fields key with
  | some w => w
  | none => .undefined

/-- The `Object.entries(props).forEach` loop of `object`, with `acc` the
output record built so far. -/
def objectGo (fields : List (String × JsValue)) (ctx : ParsingCtx) :
    List (String × Parser) → List (String × JsValue) →
    Except JsError (List (String × JsValue))
  | [], acc => .ok acc
  | (key, parser) :: rest, acc =>
    match parser (objFieldArg fields key)
        (pushToCtx ctx ("object property " ++ key)) with
    | .error e => .error e
    | .ok u =>
      objectGo fields ctx rest (if isUndefined u then acc else assign acc key u)

/-- `object(props)`: `props` is `Object.entries` of the property/parser
record, in declaration order. -/
def object (props : List (String × Parser)) : Parser := fun v ctx =>
  if isRecord v then
    match objectGo (ownFields v) ctx props [] with
    | .error e => .error e
    | .ok obj => .ok (.obj obj)
  else .error (error ("Value " ++ reprJs v ++ " is not an object") ctx)

/-- `record`. -/
def record : Parser := fun v ctx =>
  if isRecord v then .ok v
  else .error (error ("Value " ++ reprJs v ++ " is not an object") ctx)

/-- The `v.map((x, i) => ...)` loop of `array`: `i` is the index of the
head of the remaining list; a throwing callback aborts `Array.prototype.map`
at the first throw. -/
def arrayGo (item : Parser) (ctx : ParsingCtx) :
    List JsValue → Nat → Except JsError (List JsValue)
  | [], _ => .ok []
  | x :: xs, i =>
    match item x (pushToCtx ctx ("array at index " ++ toString i)) with
    | .error e => .error e
    | .ok u =>
      match arrayGo item ctx xs (i + 1) with
      | .error e => .error e
      | .ok us => .ok (u :: us)

/-- The elements of an array value. -/
def ownElems : JsValue → List JsValue
  | .arr xs => xs
  | _ => []

/-- `array(item)`. -/
def array (item : Parser) : Parser := fun v ctx =>
  if isJsArray v then
    match arrayGo item ctx (ownElems v) 0 with
    | .error e => .error e
    | .ok us => .ok (.arr us)
  else .error (error ("Value " ++ reprJs v ++ " is not an array") ctx)

/-- `optional(parser)`. -/
def optional (parser : Parser) : Parser := fun v ctx =>
  if jsTypeof v = "undefined" then .ok .undefined
  else parser v ctx

/-- `nullable(parser)`. -/
def nullable (parser : Parser) : Parser := fun v ctx =>
  if isJsNull v then .ok .null
  else parser v ctx

/-- The `def` argument of `withDefault`: a plain value (`inl`) or a
zero-argument supplier (`inr`). `def instanceof Function` holds exactly for
the right summand, since `JsValue` carries no function values. -/
def evalDefault : JsValue ⊕ (Unit → JsValue) → JsValue
  | .inl d => d
  | .inr f => f ()

/-- `withDefault(parser, def)`. -/
def withDefault (parser : Parser) (dflt : JsValue ⊕ (Unit → JsValue)) :
    Parser := fun v ctx =>
  match parser v ctx with
  | .error e => .error e
  | .ok x =>
    if isJsNull x || isUndefined x then .ok (evalDefault dflt)
    else .ok x

/-- `map(parser, f) = (v, ctx) => f(parser(v, ctx))`. The caller-supplied
`f` is an arbitrary JS function and may itself throw, which the source does
not guard against, so `f` here returns in `Except`; a total `f` is passed
as `fun x => .ok (g x)`. -/
def map (parser : Parser) (f : JsValue → Except JsError JsValue) : Parser :=
  fun v ctx =>
  match parser v ctx with
  | .error e => .error e
  | .ok x => f x

/-- `constant(x)`. -/
def constant (x : JsValue) : Parser := fun _ _ => .ok x

/-- `identity`. -/
def identity : Parser := fun v _ => .ok v

/-- `unknown`. -/
def unknown : Parser := fun v _ => .ok v

/-- `lift(f)` for a total `f`. -/
def lift (f : JsValue → JsValue) : Parser := fun v _ => .ok (f v)

/-- The `for (const parser of parsers)` loop of `alt`: `err` is the last
caught exception, `none` before any parser has run. Every caught value is
an `Error`-like object, hence truthy, so the source's final `if (err)`
test checks exactly whether `err` is `some`. -/
def altGo (v : JsValue) (ctx : ParsingCtx) :
    List Parser → Option JsError → Except JsError JsValue
  | [], some e => .error e
  | [], none => .error (error "Unexpected data" ctx)
  | parser :: rest, _ =>
    match parser v ctx with
    | .ok u => .ok u
    | .error e => altGo v ctx rest (some e)

/-- `alt(...parsers)`. -/
def alt (parsers : List Parser) : Parser := fun v ctx =>
  altGo v ctx parsers none

/-- `runParser(parser, v) = parser(v, newParsingCtx())`. -/
def runParser (parser : Parser) (v : JsValue) : Except JsError JsValue :=
  parser v newParsingCtx

/-! ### Helper lemmas -/

theorem foldl_append_init (l : List String) (a b : String) :
    l.foldl (fun r s => r ++ s) (a ++ b) = a ++ l.foldl (fun r s => r ++ s) b := by
  induction l generalizing b with
  | nil => rfl
  | cons y ys ih =>
    simp only [List.foldl]
    rw [String.append_assoc, ih]

theorem join_cons (y : String) (t : List String) :
    String.join (y :: t) = y ++ String.join t := by
  show List.foldl (fun r s => r ++ s) ("" ++ y) t = _
  have h : ("" ++ y) = (y ++ "") := by rw [String.append_empty]; rfl
  rw [h, foldl_append_init]
  rfl

theorem foldl_in_eq_join (l : List String) (s : String) :
    l.foldl (fun a x => a ++ " in " ++ x) s
      = s ++ String.join (l.map (fun x => " in " ++ x)) := by
  induction l generalizing s with
  | nil => simp [String.join, String.append_empty]
  | cons x xs ih =>
    simp only [List.foldl, List.map, join_cons, ih]
    simp [String.append_assoc]

/-! ### Claims -/

/-- C5: pushing a fragment prepends it to the context's fragment sequence,
and an error built from a base message and a context carries the base
message followed by `" in <fragment>"` for each fragment in stored order;
pushing `"b"` then `"a"` onto the empty context yields `["a", "b"]`, and an
error built from that context has message `"<msg> in a in b"`. -/
theorem pushToCtx_error_format :
    (∀ (ctx : ParsingCtx) (f : String), pushToCtx ctx f () = f :: ctx ()) ∧
    (∀ (msg : String) (ctx : ParsingCtx),
      error msg ctx
        = .parsing (msg ++ String.join ((ctx ()).map (fun x => " in " ++ x)))) ∧
    pushToCtx (pushToCtx newParsingCtx "b") "a" () = ["a", "b"] ∧
    (∀ msg : String, error msg (pushToCtx (pushToCtx newParsingCtx "b") "a")
        = .parsing (msg ++ " in a in b")) := by
  have hfmt : ∀ (msg : String) (ctx : ParsingCtx),
      error msg ctx
        = .parsing (msg ++ String.join ((ctx ()).map (fun x => " in " ++ x))) :=
    fun msg ctx => by simp only [error, foldl_in_eq_join]
  refine ⟨fun ctx f => rfl, hfmt, rfl, fun msg => ?_⟩
  rw [hfmt]
  rfl

/-- C6: pushing a fragment produces a new context and leaves the original
context observably unchanged, so two sibling descents pushing distinct
fragments onto the same parent never observe each other's fragments. -/
theorem pushToCtx_no_mutation :
    ∀ (ctx : ParsingCtx) (a b : String), a ∉ ctx () → a ≠ b →
      pushToCtx ctx a () = a :: ctx () ∧
      pushToCtx ctx b () = b :: ctx () ∧
      a ∉ pushToCtx ctx b () := by
  intro ctx a b ha hab
  refine ⟨rfl, rfl, ?_⟩
  simp only [pushToCtx, List.mem_cons, not_or]
  exact ⟨hab, ha⟩

theorem pushToCtx_no_mutation_witness :
    ("x" : String) ∉ newParsingCtx () ∧ ("x" : String) ≠ "y" ∧
    (pushToCtx newParsingCtx "x" () = "x" :: newParsingCtx () ∧
     pushToCtx newParsingCtx "y" () = "y" :: newParsingCtx () ∧
     ("x" : String) ∉ pushToCtx newParsingCtx "y" ()) :=
  ⟨by simp [newParsingCtx], by decide,
    pushToCtx_no_mutation newParsingCtx "x" "y" (by simp [newParsingCtx])
      (by decide)⟩

/-- C9: on every value of runtime type string, `runParser string` returns
the value unchanged; on every other value it fails with the message
`"Value <repr> is not a string"`. -/
theorem string_spec :
    (∀ s : String, runParser string (.str s) = .ok (.str s)) ∧
    (∀ v : JsValue, jsTypeof v ≠ "string" →
      runParser string v
        = .error (.parsing ("Value " ++ reprJs v ++ " is not a string"))) := by
  constructor
  · intro s
    rfl
  · intro v hv
    simp [runParser, string, hv, error, newParsingCtx]

theorem string_spec_witness :
    runParser string (.str "hi") = .ok (.str "hi") ∧
    jsTypeof (.num 27) ≠ "string" ∧
    runParser string (.num 27)
      = .error (.parsing "Value 27 is not a string") :=
  ⟨string_spec.1 "hi", by decide, by
    have h := string_spec.2 (.num 27) (by decide)
    simpa [reprJs] using h⟩

/-- C8: `compose` is associative — on every input and context,
`compose (compose a b) c` behaves identically to `compose a (compose b c)`
— and `compose a b` feeds the output of `a` into `b`, threading the same
context through both, while propagating a failure of `a` without invoking
`b`. -/
theorem compose_assoc :
    ∀ (a b c : Parser) (v : JsValue) (ctx : ParsingCtx),
      compose (compose a b) c v ctx = compose a (compose b c) v ctx ∧
      (∀ u, a v ctx = .ok u → compose a b v ctx = b u ctx) ∧
      (∀ e, a v ctx = .error e → compose a b v ctx = .error e) := by
  intro a b c v ctx
  refine ⟨?_, ?_, ?_⟩
  · cases ha : a v ctx with
    | error e => simp [compose, ha]
    | ok u =>
      cases hb : b u ctx with
      | error e => simp [compose, ha, hb]
      | ok w => simp [compose, ha, hb]
  · intro u hu
    simp [compose, hu]
  · intro e he
    simp [compose, he]

theorem compose_assoc_witness :
    compose (compose string identity) identity (.str "x") newParsingCtx
        = compose string (compose identity identity) (.str "x") newParsingCtx ∧
    string (.str "x") newParsingCtx = .ok (.str "x") ∧
    compose string identity (.str "x") newParsingCtx
        = identity (.str "x") newParsingCtx :=
  ⟨(compose_assoc string identity identity (.str "x") newParsingCtx).1, rfl,
    (compose_assoc string identity identity (.str "x") newParsingCtx).2.1
      (.str "x") rfl⟩

/-- C7: `withDefault parser dflt` first invokes `parser`; a `null` or
`undefined` result is replaced by the default (a plain value, or a
zero-argument supplier invoked on demand), any other result is returned
unchanged, and a failure of `parser` is forwarded. -/
theorem withDefault_spec :
    ∀ (parser : Parser) (dflt : JsValue ⊕ (Unit → JsValue)) (v : JsValue)
      (ctx : ParsingCtx),
      (∀ e, parser v ctx = .error e → withDefault parser dflt v ctx = .error e) ∧
      (∀ x, parser v ctx = .ok x → (x = .null ∨ x = .undefined) →
        withDefault parser dflt v ctx = .ok (evalDefault dflt)) ∧
      (∀ x, parser v ctx = .ok x → x ≠ .null → x ≠ .undefined →
        withDefault parser dflt v ctx = .ok x) := by
  intro parser dflt v ctx
  refine ⟨?_, ?_, ?_⟩
  · intro e he
    simp [withDefault, he]
  · intro x hx hnull
    rcases hnull with h | h <;> subst h <;> simp [withDefault, hx, isJsNull, isUndefined]
  · intro x hx h1 h2
    have hn : isJsNull x = false := by
      cases x <;> first | rfl | exact absurd rfl h1
    have hu : isUndefined x = false := by
      cases x <;> first | rfl | exact absurd rfl h2
    simp [withDefault, hx, hn, hu]

theorem withDefault_spec_witness :
    optional number .undefined newParsingCtx = .ok .undefined ∧
    withDefault (optional number) (Sum.inl (.num 7)) .undefined newParsingCtx
      = .ok (.num 7) ∧
    optional number (.num 3) newParsingCtx = .ok (.num 3) ∧
    withDefault (optional number) (Sum.inl (.num 7)) (.num 3) newParsingCtx
      = .ok (.num 3) :=
  ⟨rfl,
    (withDefault_spec (optional number) (Sum.inl (.num 7)) .undefined
        newParsingCtx).2.1 .undefined rfl (Or.inr rfl),
    rfl,
    (withDefault_spec (optional number) (Sum.inl (.num 7)) (.num 3)
        newParsingCtx).2.2 (.num 3) rfl (fun h => nomatch h) (fun h => nomatch h)⟩

theorem altGo_skip_ok (v : JsValue) (ctx : ParsingCtx) :
    ∀ (qs : List Parser) (q : Parser) (rest : List Parser) (u : JsValue)
      (acc : Option JsError),
      (∀ p ∈ qs, ∃ e, p v ctx = .error e) → q v ctx = .ok u →
      altGo v ctx (qs ++ q :: rest) acc = .ok u := by
  intro qs
  induction qs with
  | nil =>
    intro q rest u acc _ hq
    simp [altGo, hq]
  | cons p ps ih =>
    intro q rest u acc hfail hq
    obtain ⟨e, he⟩ := hfail p (List.mem_cons_self p ps)
    show altGo v ctx (p :: (ps ++ q :: rest)) acc = .ok u
    simp only [altGo, he]
    exact ih q rest u (some e)
      (fun r hr => hfail r (List.mem_cons_of_mem p hr)) hq

theorem altGo_all_fail (v : JsValue) (ctx : ParsingCtx) :
    ∀ (qs : List Parser) (q : Parser) (e : JsError) (acc : Option JsError),
      (∀ p ∈ qs, ∃ e2, p v ctx = .error e2) → q v ctx = .error e →
      altGo v ctx (qs ++ [q]) acc = .error e := by
  intro qs
  induction qs with
  | nil =>
    intro q e acc _ hq
    simp [altGo, hq]
  | cons p ps ih =>
    intro q e acc hfail hq
    obtain ⟨e2, he⟩ := hfail p (List.mem_cons_self p ps)
    show altGo v ctx (p :: (ps ++ [q])) acc = .error e
    simp only [altGo, he]
    exact ih q e (some e2)
      (fun r hr => hfail r (List.mem_cons_of_mem p hr)) hq

/-- C3: `alt` tries the given parsers in order on the same input and
context: with zero parsers it fails with `"Unexpected data"`; when every
parser before some parser `q` fails, `q`'s success is returned (later
alternatives unexamined, intermediate failures discarded); and when all
parsers fail, the last error is raised. -/
theorem alt_spec :
    ∀ (v : JsValue) (ctx : ParsingCtx),
      alt [] v ctx = .error (error "Unexpected data" ctx) ∧
      (∀ (qs : List Parser) (q : Parser) (rest : List Parser) (u : JsValue),
        (∀ p ∈ qs, ∃ e, p v ctx = .error e) → q v ctx = .ok u →
        alt (qs ++ q :: rest) v ctx = .ok u) ∧
      (∀ (qs : List Parser) (q : Parser) (e : JsError),
        (∀ p ∈ qs, ∃ e2, p v ctx = .error e2) → q v ctx = .error e →
        alt (qs ++ [q]) v ctx = .error e) := by
  intro v ctx
  refine ⟨rfl, ?_, ?_⟩
  · intro qs q rest u hfail hq
    exact altGo_skip_ok v ctx qs q rest u none hfail hq
  · intro qs q e hfail hq
    exact altGo_all_fail v ctx qs q e none hfail hq

theorem alt_spec_witness :
    (∀ p ∈ [string], ∃ e, p (.num 27) newParsingCtx = .error e) ∧
    number (.num 27) newParsingCtx = .ok (.num 27) ∧
    alt ([string] ++ number :: []) (.num 27) newParsingCtx = .ok (.num 27) ∧
    (∀ p ∈ [string], ∃ e, p (.bool true) newParsingCtx = .error e) ∧
    number (.bool true) newParsingCtx
      = .error (.parsing ("Value " ++ reprJs (.bool true) ++ " is not a number")) ∧
    alt ([string] ++ [number]) (.bool true) newParsingCtx
      = .error (.parsing ("Value " ++ reprJs (.bool true) ++ " is not a number")) ∧
    alt [] (.bool true) newParsingCtx
      = .error (error "Unexpected data" newParsingCtx) :=
  have h27 : ∀ p ∈ [string], ∃ e, p (.num 27) newParsingCtx = .error e := by
    intro p hp
    rw [List.mem_singleton] at hp
    subst hp
    exact ⟨_, rfl⟩
  have htrue : ∀ p ∈ [string], ∃ e, p (.bool true) newParsingCtx = .error e := by
    intro p hp
    rw [List.mem_singleton] at hp
    subst hp
    exact ⟨_, rfl⟩
  ⟨h27, rfl,
    (alt_spec (.num 27) newParsingCtx).2.1 [string] number [] (.num 27) h27 rfl,
    htrue, rfl,
    (alt_spec (.bool true) newParsingCtx).2.2 [string] number
      (.parsing ("Value " ++ reprJs (.bool true) ++ " is not a number"))
      htrue rfl,
    (alt_spec (.bool true) newParsingCtx).1⟩

/-- C10: `alt` catches and discards every error raised by an alternative,
not only the library's own parsing errors: an error raised by the
caller-supplied function of `map` used as a non-final alternative is
swallowed and the next alternative decides the outcome, even though outside
`alt` the same error propagates uncaught. -/
theorem alt_swallows_foreign_errors :
    ∀ (p q : Parser) (f : JsValue → Except JsError JsValue) (v u : JsValue)
      (ctx : ParsingCtx) (t : String),
      p v ctx = .ok u → f u = .error (.foreign t) →
      map p f v ctx = .error (.foreign t) ∧
      alt [map p f, q] v ctx = q v ctx := by
  intro p q f v u ctx t hp hf
  have hm : map p f v ctx = .error (.foreign t) := by simp [map, hp, hf]
  refine ⟨hm, ?_⟩
  show altGo v ctx [map p f, q] none = q v ctx
  rw [altGo, hm]
  show altGo v ctx [q] (some (.foreign t)) = q v ctx
  rw [altGo]
  cases hq : q v ctx with
  | ok w => rfl
  | error e => rfl

theorem alt_swallows_foreign_errors_witness :
    identity (.num 5) newParsingCtx = .ok (.num 5) ∧
    (fun _ : JsValue => (.error (.foreign "boom") : Except JsError JsValue))
        (.num 5) = .error (.foreign "boom") ∧
    map identity (fun _ => .error (.foreign "boom")) (.num 5) newParsingCtx
      = .error (.foreign "boom") ∧
    alt [map identity (fun _ => .error (.foreign "boom")), number] (.num 5)
        newParsingCtx = number (.num 5) newParsingCtx :=
  ⟨rfl, rfl,
    (alt_swallows_foreign_errors identity number
        (fun _ => .error (.foreign "boom")) (.num 5) (.num 5) newParsingCtx
        "boom" rfl rfl).1,
    (alt_swallows_foreign_errors identity number
        (fun _ => .error (.foreign "boom")) (.num 5) (.num 5) newParsingCtx
        "boom" rfl rfl).2⟩

theorem arrayGo_ok (item : Parser) (ctx : ParsingCtx) :
    ∀ (xs : List JsValue) (i0 : Nat) (us : List JsValue),
      arrayGo item ctx xs i0 = .ok us →
      us.length = xs.length ∧
      ∀ j (h1 : j < xs.length) (h2 : j < us.length),
        item (xs.get ⟨j, h1⟩)
            (pushToCtx ctx ("array at index " ++ toString (i0 + j)))
          = .ok (us.get ⟨j, h2⟩) := by
  intro xs
  induction xs with
  | nil =>
    intro i0 us h
    simp only [arrayGo, Except.ok.injEq] at h
    subst h
    exact ⟨rfl, fun j h1 h2 => absurd h1 (by simp)⟩
  | cons x xs ih =>
    intro i0 us h
    cases hx : item x (pushToCtx ctx ("array at index " ++ toString i0)) with
    | error e => simp [arrayGo, hx] at h
    | ok u =>
      cases hrest : arrayGo item ctx xs (i0 + 1) with
      | error e => simp [arrayGo, hx, hrest] at h
      | ok us2 =>
        obtain ⟨hlen, helem⟩ := ih (i0 + 1) us2 hrest
        simp only [arrayGo, hx, hrest, Except.ok.injEq] at h
        subst h
        refine ⟨by simp [hlen], ?_⟩
        intro j h1 h2
        cases j with
        | zero => simpa using hx
        | succ j =>
          have harith : i0 + (j + 1) = (i0 + 1) + j := by omega
          rw [harith]
          simpa using helem j (by simpa using h1) (by simpa using h2)

theorem arrayGo_first_err (item : Parser) (ctx : ParsingCtx) :
    ∀ (xs : List JsValue) (i0 i : Nat) (hi : i < xs.length) (e : JsError),
      (∀ j (hj : j < i), ∃ u,
        item (xs.get ⟨j, hj.trans hi⟩)
            (pushToCtx ctx ("array at index " ++ toString (i0 + j))) = .ok u) →
      item (xs.get ⟨i, hi⟩)
          (pushToCtx ctx ("array at index " ++ toString (i0 + i))) = .error e →
      arrayGo item ctx xs i0 = .error e := by
  intro xs
  induction xs with
  | nil =>
    intro i0 i hi
    exact absurd hi (by simp)
  | cons x xs ih =>
    intro i0 i hi e hok herr
    cases i with
    | zero =>
      simp only [Nat.add_zero, List.get] at herr
      simp [arrayGo, herr]
    | succ i =>
      obtain ⟨u, hu⟩ := hok 0 (Nat.succ_pos i)
      simp only [Nat.add_zero, List.get] at hu
      have hi2 : i < xs.length := by simpa using hi
      have herr2 : item (xs.get ⟨i, hi2⟩)
          (pushToCtx ctx ("array at index " ++ toString ((i0 + 1) + i)))
            = .error e := by
        have harith : (i0 + 1) + i = i0 + (i + 1) := by omega
        rw [harith]
        simpa using herr
      have hok2 : ∀ j (hj : j < i), ∃ w,
          item (xs.get ⟨j, hj.trans hi2⟩)
              (pushToCtx ctx ("array at index " ++ toString ((i0 + 1) + j)))
            = .ok w := by
        intro j hj
        obtain ⟨w, hw⟩ := hok (j + 1) (by omega)
        refine ⟨w, ?_⟩
        have harith : (i0 + 1) + j = i0 + (j + 1) := by omega
        rw [harith]
        simpa using hw
      simp [arrayGo, hu, ih (i0 + 1) i hi2 e hok2 herr2]

/-- C4: on an array input of length `n`, `array item` returns an array of
length `n` whose `i`-th element is `item` applied to the `i`-th input
element under the context fragment `"array at index <i>"` (zero-based,
elements in order); the first element failure aborts the whole parse and
propagates that error with no partial result; and on a non-array input it
fails with `"Value <repr> is not an array"`. -/
theorem array_spec :
    ∀ (item : Parser) (ctx : ParsingCtx),
      (∀ (xs : List JsValue) (r : JsValue),
        array item (.arr xs) ctx = .ok r →
        ∃ us : List JsValue, r = .arr us ∧ us.length = xs.length ∧
          ∀ i (h1 : i < xs.length) (h2 : i < us.length),
            item (xs.get ⟨i, h1⟩)
                (pushToCtx ctx ("array at index " ++ toString i))
              = .ok (us.get ⟨i, h2⟩)) ∧
      (∀ (xs : List JsValue) (i : Nat) (hi : i < xs.length) (e : JsError),
        (∀ j (hj : j < i), ∃ u,
          item (xs.get ⟨j, hj.trans hi⟩)
              (pushToCtx ctx ("array at index " ++ toString j)) = .ok u) →
        item (xs.get ⟨i, hi⟩)
            (pushToCtx ctx ("array at index " ++ toString i)) = .error e →
        array item (.arr xs) ctx = .error e) ∧
      (∀ v : JsValue, isJsArray v = false →
        array item v ctx
          = .error (error ("Value " ++ reprJs v ++ " is not an array") ctx)) := by
  intro item ctx
  refine ⟨?_, ?_, ?_⟩
  · intro xs r h
    cases hgo : arrayGo item ctx xs 0 with
    | error e => simp [array, isJsArray, ownElems, hgo] at h
    | ok us =>
      obtain ⟨hlen, helem⟩ := arrayGo_ok item ctx xs 0 us hgo
      refine ⟨us, ?_, hlen, ?_⟩
      · simp only [array, isJsArray, ownElems, hgo, if_true,
          Except.ok.injEq] at h
        exact h.symm
      · intro i h1 h2
        simpa using helem i h1 h2
  · intro xs i hi e hok herr
    have hgo : arrayGo item ctx xs 0 = .error e := by
      refine arrayGo_first_err item ctx xs 0 i hi e ?_ (by simpa using herr)
      intro j hj
      obtain ⟨u, hu⟩ := hok j hj
      exact ⟨u, by simpa using hu⟩
    simp [array, isJsArray, ownElems, hgo]
  · intro v hv
    simp [array, hv]

theorem array_spec_witness :
    array number (.arr [.num 1, .num 2, .num 3]) newParsingCtx
      = .ok (.arr [.num 1, .num 2, .num 3]) ∧
    (∃ us : List JsValue, JsValue.arr [.num 1, .num 2, .num 3] = .arr us ∧
      us.length = ([.num 1, .num 2, .num 3] : List JsValue).length ∧
      ∀ i (h1 : i < ([.num 1, .num 2, .num 3] : List JsValue).length)
        (h2 : i < us.length),
        number (([.num 1, .num 2, .num 3] : List JsValue).get ⟨i, h1⟩)
            (pushToCtx newParsingCtx ("array at index " ++ toString i))
          = .ok (us.get ⟨i, h2⟩)) ∧
    array number (.arr [.num 1, .str "x", .num 3]) newParsingCtx
      = .error (.parsing ("Value " ++ reprJs (.str "x") ++ " is not a number"
          ++ " in " ++ ("array at index " ++ toString 1))) ∧
    isJsArray (.num 27) = false ∧
    array number (.num 27) newParsingCtx
      = .error (error ("Value " ++ reprJs (.num 27) ++ " is not an array")
          newParsingCtx) :=
  have hfail : ∀ j (hj : j < 1), ∃ u,
      number (([.num 1, .str "x", .num 3] : List JsValue).get
          ⟨j, hj.trans (by simp)⟩)
        (pushToCtx newParsingCtx ("array at index " ++ toString j)) = .ok u := by
    intro j hj
    have hj0 : j = 0 := by omega
    subst hj0
    exact ⟨_, rfl⟩
  ⟨rfl,
    (array_spec number newParsingCtx).1 [.num 1, .num 2, .num 3]
      (.arr [.num 1, .num 2, .num 3]) rfl,
    (array_spec number newParsingCtx).2.1 [.num 1, .str "x", .num 3] 1
      (by simp)
      (.parsing ("Value " ++ reprJs (.str "x") ++ " is not a number"
        ++ " in " ++ ("array at index " ++ toString 1))) hfail rfl,
    rfl,
    (array_spec number newParsingCtx).2.2 (.num 27) rfl⟩

theorem lookupField_append_none (l1 l2 : List (String × JsValue)) (k : String)
    (h : lookupField l1 k = none) :
    lookupField (l1 ++ l2) k = lookupField l2 k := by
  induction l1 with
  | nil => rfl
  | cons p rest ih =>
    obtain ⟨k2, u⟩ := p
    by_cases hk : k2 = k
    · simp [lookupField, hk] at h
    · simp only [lookupField, hk, if_false, List.cons_append] at h ⊢
      exact ih h

theorem assign_fresh (acc : List (String × JsValue)) (k : String) (u : JsValue)
    (h : lookupField acc k = none) : assign acc k u = acc ++ [(k, u)] := by
  induction acc with
  | nil => rfl
  | cons p rest ih =>
    obtain ⟨k2, w⟩ := p
    by_cases hk : k2 = k
    · simp [lookupField, hk] at h
    · simp only [lookupField, hk, if_false] at h
      simp [assign, hk, ih h]

theorem objectGo_ok (fields : List (String × JsValue)) (ctx : ParsingCtx) :
    ∀ (props : List (String × Parser)) (acc : List (String × JsValue)),
      (props.map Prod.fst).Nodup →
      (∀ kp ∈ props, ∃ u, kp.2 (objFieldArg fields kp.1)
          (pushToCtx ctx ("object property " ++ kp.1)) = .ok u) →
      (∀ kp ∈ props, lookupField acc kp.1 = none) →
      ∃ rest, objectGo fields ctx props acc = .ok (acc ++ rest) ∧
        List.Sublist (rest.map Prod.fst) (props.map Prod.fst) ∧
        (∀ k u, (k, u) ∈ rest ↔ ∃ p, (k, p) ∈ props ∧
          p (objFieldArg fields k)
              (pushToCtx ctx ("object property " ++ k)) = .ok u ∧
          u ≠ .undefined) := by
  intro props
  induction props with
  | nil =>
    intro acc _ _ _
    exact ⟨[], by simp [objectGo], by simp, by simp⟩
  | cons hd tl ih =>
    intro acc hnd hok hacc
    obtain ⟨key, parser⟩ := hd
    obtain ⟨u0, hu0pair⟩ := hok ⟨key, parser⟩ (List.mem_cons_self _ _)
    have hu0 : parser (objFieldArg fields key)
        (pushToCtx ctx ("object property " ++ key)) = .ok u0 := hu0pair
    have hndtl : (tl.map Prod.fst).Nodup := (List.nodup_cons.mp hnd).2
    have hkey : key ∉ tl.map Prod.fst := (List.nodup_cons.mp hnd).1
    have hoktl : ∀ kp ∈ tl, ∃ u, kp.2 (objFieldArg fields kp.1)
        (pushToCtx ctx ("object property " ++ kp.1)) = .ok u :=
      fun kp hkp => hok kp (List.mem_cons_of_mem _ hkp)
    by_cases hne0 : u0 = .undefined
    · subst hne0
      have hacctl : ∀ kp ∈ tl, lookupField acc kp.1 = none :=
        fun kp hkp => hacc kp (List.mem_cons_of_mem _ hkp)
      obtain ⟨rest, hgo, hsub, hiff⟩ := ih acc hndtl hoktl hacctl
      refine ⟨rest, ?_, hsub.cons _, ?_⟩
      · show objectGo fields ctx ((key, parser) :: tl) acc = _
        simp only [objectGo]
        rw [hu0]
        exact hgo
      · intro k u
        rw [hiff k u]
        constructor
        · rintro ⟨p, hp, hres, hne⟩
          exact ⟨p, List.mem_cons_of_mem _ hp, hres, hne⟩
        · rintro ⟨p, hp, hres, hne⟩
          rcases List.mem_cons.mp hp with heq | htl
          · exfalso
            have hk : k = key := congrArg Prod.fst heq
            have hpp : p = parser := congrArg Prod.snd heq
            subst hk
            subst hpp
            rw [hu0] at hres
            exact hne (Except.ok.inj hres).symm
          · exact ⟨p, htl, hres, hne⟩
    · have hfresh : lookupField acc key = none :=
        hacc ⟨key, parser⟩ (List.mem_cons_self _ _)
      have hassign : assign acc key u0 = acc ++ [(key, u0)] :=
        assign_fresh acc key u0 hfresh
      have hacctl : ∀ kp ∈ tl,
          lookupField (acc ++ [(key, u0)]) kp.1 = none := by
        intro kp hkp
        have h1 : lookupField acc kp.1 = none :=
          hacc kp (List.mem_cons_of_mem _ hkp)
        rw [lookupField_append_none acc _ _ h1]
        have hne : key ≠ kp.1 := by
          intro hcontra
          exact hkey (hcontra ▸ List.mem_map_of_mem Prod.fst hkp)
        simp [lookupField, hne]
      obtain ⟨rest, hgo, hsub, hiff⟩ :=
        ih (acc ++ [(key, u0)]) hndtl hoktl hacctl
      have hu0flag : isUndefined u0 = false := by
        cases u0 <;> first | rfl | exact absurd rfl hne0
      refine ⟨(key, u0) :: rest, ?_, ?_, ?_⟩
      · show objectGo fields ctx ((key, parser) :: tl) acc = _
        simp only [objectGo]
        rw [hu0]
        show objectGo fields ctx tl
            (if isUndefined u0 = true then acc else assign acc key u0) = _
        rw [hu0flag]
        simp only [Bool.false_eq_true, if_false, hassign, hgo]
        simp [List.append_assoc]
      · simpa using hsub.cons₂ key
      · intro k u
        constructor
        · intro hmem
          rcases List.mem_cons.mp hmem with heq | hrest
          · have hk : k = key := congrArg Prod.fst heq
            have hu : u = u0 := congrArg Prod.snd heq
            subst hk
            subst hu
            exact ⟨parser, List.mem_cons_self _ _, hu0, hne0⟩
          · obtain ⟨p, hp, hres, hne⟩ := (hiff k u).mp hrest
            exact ⟨p, List.mem_cons_of_mem _ hp, hres, hne⟩
        · rintro ⟨p, hp, hres, hne⟩
          rcases List.mem_cons.mp hp with heq | htl
          · have hk : k = key := congrArg Prod.fst heq
            have hpp : p = parser := congrArg Prod.snd heq
            subst hk
            subst hpp
            rw [hu0] at hres
            have hud : u0 = u := Except.ok.inj hres
            subst hud
            exact List.mem_cons_self _ _
          · have hkne : k ≠ key := by
              intro hcontra
              exact hkey (hcontra ▸ List.mem_map_of_mem Prod.fst htl)
            exact List.mem_cons_of_mem _ ((hiff k u).mpr ⟨p, htl, hres, hne⟩)

/-- C1: on a non-null, non-array object input, `object props` runs the
declared property parsers in order, each on the input's own-property value
when the key is present and on `undefined` otherwise, under the context
fragment `"object property <key>"`; when every field parser succeeds, the
output record binds a key to a value exactly when that key's parser
returned that value and the value is not `undefined`, and the output keys
respect declaration order. -/
theorem object_spec :
    ∀ (props : List (String × Parser)) (fields : List (String × JsValue))
      (ctx : ParsingCtx),
      (props.map Prod.fst).Nodup →
      (∀ kp ∈ props, ∃ u, kp.2 (objFieldArg fields kp.1)
          (pushToCtx ctx ("object property " ++ kp.1)) = .ok u) →
      ∃ out, object props (.obj fields) ctx = .ok (.obj out) ∧
        List.Sublist (out.map Prod.fst) (props.map Prod.fst) ∧
        (∀ k u, (k, u) ∈ out ↔ ∃ p, (k, p) ∈ props ∧
          p (objFieldArg fields k)
              (pushToCtx ctx ("object property " ++ k)) = .ok u ∧
          u ≠ .undefined) := by
  intro props fields ctx hnd hok
  obtain ⟨rest, hgo, hsub, hiff⟩ := objectGo_ok fields ctx props []
    hnd hok (fun kp _ => rfl)
  refine ⟨rest, ?_, hsub, hiff⟩
  have hgo2 : objectGo fields ctx props [] = .ok rest := by simpa using hgo
  simp only [object, isRecord, jsTypeof, isJsNull, isJsArray, ownFields]
  rw [hgo2]
  simp

theorem object_spec_witness :
    ((([("a", string), ("b", optional number)] :
        List (String × Parser)).map Prod.fst).Nodup) ∧
    (∀ kp ∈ ([("a", string), ("b", optional number)] :
        List (String × Parser)), ∃ u,
      kp.2 (objFieldArg [("a", .str "hi")] kp.1)
        (pushToCtx newParsingCtx ("object property " ++ kp.1)) = .ok u) ∧
    (∃ out, object [("a", string), ("b", optional number)]
        (.obj [("a", .str "hi")]) newParsingCtx = .ok (.obj out) ∧
      List.Sublist (out.map Prod.fst) (([("a", string),
        ("b", optional number)] : List (String × Parser)).map Prod.fst) ∧
      (∀ k u, (k, u) ∈ out ↔ ∃ p,
        (k, p) ∈ ([("a", string), ("b", optional number)] :
          List (String × Parser)) ∧
        p (objFieldArg [("a", .str "hi")] k)
            (pushToCtx newParsingCtx ("object property " ++ k)) = .ok u ∧
        u ≠ .undefined)) ∧
    object [("a", string), ("b", optional number)] (.obj [("a", .str "hi")])
        newParsingCtx = .ok (.obj [("a", .str "hi")]) :=
  have hnd : ((([("a", string), ("b", optional number)] :
      List (String × Parser)).map Prod.fst).Nodup) := by
    simp
  have hok : ∀ kp ∈ ([("a", string), ("b", optional number)] :
      List (String × Parser)), ∃ u,
      kp.2 (objFieldArg [("a", .str "hi")] kp.1)
        (pushToCtx newParsingCtx ("object property " ++ kp.1)) = .ok u := by
    intro kp hkp
    rcases List.mem_cons.mp hkp with heq | h2
    · subst heq
      exact ⟨_, rfl⟩
    · rcases List.mem_cons.mp h2 with heq | h3
      · subst heq
        exact ⟨_, rfl⟩
      · exact absurd h3 (List.not_mem_nil _)
  ⟨hnd, hok,
    object_spec [("a", string), ("b", optional number)] [("a", .str "hi")]
      newParsingCtx hnd hok,
    rfl⟩

/-- C2: contrary to the claim (and to the repository's own test
`"date and time - failure"`, which expects `runParser(dateTime, "hello")`
to throw), `dateTime` never fails on a string input: the moment constructor
does not throw on strings, an unparseable string yields an invalid moment
whose `diff` against the sentinel is `NaN`, and `NaN > 0` is false, so for
an unparseable string — and likewise for an instant at or before
1899-12-30T00:00:00.000Z — the parser returns `undefined` successfully
instead of failing with `"Value <repr> is not a date and time"`. -/
theorem dateTime_never_fails_on_strings :
    ∀ (momentParse : String → Option Int) (s : String),
      (momentParse s = none →
        runParser (dateTime momentParse) (.str s) = .ok .undefined) ∧
      (∀ ms m0 : Int, momentParse s = some ms →
        momentParse "1899-12-30T00:00:00.000Z" = some m0 → ms ≤ m0 →
        runParser (dateTime momentParse) (.str s) = .ok .undefined) := by
  intro momentParse s
  constructor
  · intro hnone
    simp [runParser, dateTime, compose, string, jsTypeof, hnone, momentDiff,
      diffGtZero]
  · intro ms m0 hms hm0 hle
    have hd : momentDiff (momentParse s)
        (momentParse "1899-12-30T00:00:00.000Z") = some (ms - m0) := by
      rw [hms, hm0]
      rfl
    have hgt : diffGtZero (some (ms - m0)) = false := by
      simp [diffGtZero]
      omega
    simp [runParser, dateTime, compose, string, jsTypeof, hd, hgt]

theorem dateTime_never_fails_on_strings_witness :
    (fun _ : String => (none : Option Int)) "hello" = none ∧
    runParser (dateTime (fun _ : String => (none : Option Int))) (.str "hello")
      = .ok .undefined ∧
    (fun _ : String => (some 0 : Option Int)) "hello" = some 0 ∧
    (fun _ : String => (some 0 : Option Int)) "1899-12-30T00:00:00.000Z"
      = some 0 ∧
    (0 : Int) ≤ 0 ∧
    runParser (dateTime (fun _ : String => (some 0 : Option Int)))
        (.str "hello") = .ok .undefined :=
  ⟨rfl,
    (dateTime_never_fails_on_strings (fun _ => none) "hello").1 rfl,
    rfl, rfl, le_refl 0,
    (dateTime_never_fails_on_strings (fun _ => some 0) "hello").2 0 0 rfl rfl
      (le_refl 0)⟩

end DataParser
